import Mathlib

/-!
Shallow embedding of the rljax update pipeline (QR-DQN, SAC, TD3) and its
numeric kernels (src/rljax/util.py, src/rljax/algorithm/{qrdqn,sac,td3}.py,
src/rljax/network/critic.py).

Tensors are embedded as (nested) lists of rationals; a batch of per-sample
matrices is a list of lists of lists.  The external numeric backend
(transcendental functions, the key-derived normal sampler, the optimizer) is a
black box in the source and is passed in as explicit function arguments here.
Machine floats are modelled by exact rationals.
-/

/-- jnp.clip: clamp a value into the closed interval given by lo, hi. -/
def clip (x lo hi : ℚ) : ℚ := min (max x lo) hi

/-- src/rljax/util.py _huber_loss: elementwise Huber loss with threshold kappa,
jnp.where(abs_td <= kappa, 0.5 * td^2, kappa * (abs_td - 0.5 * kappa)). -/
def huber_loss (td kappa : ℚ) : ℚ :=
  if |td| ≤ kappa then (1 / 2) * td ^ 2 else kappa * (|td| - (1 / 2) * kappa)

/-- The {0,1}-valued comparison (td < 0) of src/rljax/util.py line 136, cast
to a rational as jnp's boolean-to-float promotion does. -/
def ltZeroInd (td : ℚ) : ℚ := if td < 0 then 1 else 0

/-- jnp.mean over a 1-d tensor: sum divided by length. -/
def listMean (l : List ℚ) : ℚ := l.sum / (l.length : ℚ)

/-- Elementwise sum of two equal-length vectors (jnp broadcast +). -/
def addVec (a b : List ℚ) : List ℚ := List.zipWith (· + ·) a b

/-- jnp.sum over axis 0 of a matrix stored as a list of rows: column sums. -/
def colSums : List (List ℚ) → List ℚ
  | [] => []
  | [r] => r
  | r :: rs => addVec r (colSums rs)

/-- jnp.mean over axis 0 of a matrix stored as a list of rows (each column's
sum divided by the number of rows). -/
def colMeans (m : List (List ℚ)) : List ℚ :=
  (colSums m).map (· / (m.length : ℚ))

/-- jnp.max over a 1-d tensor (0 on an empty axis, which the source never
produces). -/
def listMax : List ℚ → ℚ
  | [] => 0
  | [x] => x
  | x :: xs => max x (listMax xs)

/-- jnp.argmax over a 1-d tensor: index of the first occurrence of the
maximum (0 on an empty axis, which the source never produces).  The head wins
a tie with the tail's maximum, giving jnp's first-occurrence convention. -/
def argmax : List ℚ → ℕ
  | [] => 0
  | [_] => 0
  | x :: xs => if listMax xs ≤ x then 0 else argmax xs + 1

/-- Column extraction: quantile_s[:, a] for a matrix stored as a list of rows
(src/rljax/util.py get_quantile_at_action, per sample). -/
def colAt (m : List (List ℚ)) (a : ℕ) : List ℚ :=
  m.map (fun row => row.getD a 0)

/-- src/rljax/util.py get_quantile_at_action: vmap over the batch of the
per-sample column extraction at that sample's action. -/
def get_quantile_at_action (quantile_s : List (List (List ℚ))) (action : List ℕ) :
    List (List ℚ) :=
  List.zipWith colAt quantile_s action

/-- src/rljax/util.py add_noise: jnp.clip(x + normal(key, x.shape) * std,
x_min, x_max).  The key-derived standard normal draw is passed explicitly as
the noise vector. -/
def add_noise (x noise : List ℚ) (std x_min x_max : ℚ) : List ℚ :=
  List.zipWith (fun xi ni => clip (xi + ni * std) x_min x_max) x noise

/-- src/rljax/util.py calculate_quantile_huber_loss on a (batch, N, M) tensor
td (a list of per-sample matrices whose rows carry the cum_p midpoints tau):
elementwise Huber loss times |tau - (td < 0)| / kappa, summed over axis 1,
averaged over axis 2, weighted per sample, then averaged over the batch. -/
def calculate_quantile_huber_loss (td : List (List (List ℚ))) (tau weight : List ℚ)
    (kappa : ℚ) : ℚ :=
  let batch_loss := td.map (fun m =>
    listMean (colSums (List.zipWith
      (fun p row => row.map (fun x => huber_loss x kappa * |p - ltZeroInd x| / kappa))
      tau m)))
  listMean (List.zipWith (· * ·) batch_loss weight)

/-- The two loss kinds the spec's quantile loss kernel supports. -/
inductive LossType where
  | huber : LossType
  | l2 : LossType
deriving DecidableEq

/-- Elementwise base loss selected by the loss kind: Huber with kappa = 1, or
plain squared error. -/
def baseLoss : LossType → ℚ → ℚ
  | LossType.huber => fun td => huber_loss td 1
  | LossType.l2 => fun td => td ^ 2

/-- Modelled from the spec: the kernel quantile_loss(td, cum_p_prime, weight,
kind) imported by src/rljax/algorithm/qrdqn.py from rljax.util is not under
src/.  Per spec section 4.4 it is the quantile regression loss of section 4.1
step 5 with kind selecting the Huber (kappa = 1) or squared-error base loss;
the pipeline mirrors the in-source calculate_quantile_huber_loss: elementwise
base loss times |cum_p_prime - (td < 0)| (the indicator is gradient-blocked,
which is invisible to the value semantics), summed over axis 1, averaged over
axis 2, weighted per sample, averaged over the batch. -/
def quantile_loss (td : List (List (List ℚ))) (cum_p_prime weight : List ℚ)
    (kind : LossType) : ℚ :=
  let batch_loss := td.map (fun m =>
    listMean (colSums (List.zipWith
      (fun p row => row.map (fun x => baseLoss kind x * |p - ltZeroInd x|))
      cum_p_prime m)))
  listMean (List.zipWith (· * ·) batch_loss weight)

/-!  QR-DQN (src/rljax/algorithm/qrdqn.py).  The quantile network's forward
pass is a black-box parametric map; per sample its output is an N-by-A matrix
(rows indexed by quantiles, columns by actions), so a batched output is a list
of such matrices. -/

/-- src/rljax/algorithm/qrdqn.py QRDQN._forward, per sample: mean over the
quantile axis then argmax over actions. -/
def qrdqn_forward (q : List (List ℚ)) : ℕ := argmax (colMeans q)

/-- The next-state quantile target branch of QRDQN._loss (qrdqn.py lines
162-169): with double_q, gather the target network's quantiles at the online
network's greedy (mean-quantile argmax) action; without it, take the
elementwise max over actions of the target network's quantiles.  q_on and
q_tg are the batched online and target outputs at next_state. -/
def qrdqn_next_quantile (double_q : Bool) (q_on q_tg : List (List (List ℚ))) :
    List (List ℚ) :=
  if double_q then
    get_quantile_at_action q_tg (q_on.map qrdqn_forward)
  else
    q_tg.map (fun m => m.map listMax)

/-- The construction-time loss-kind names accepted by the assertion in
QRDQN.__init__ (qrdqn.py line 43). -/
def l2_name : String := "l2"

/-- The Huber loss-kind name accepted by the assertion in QRDQN.__init__. -/
def huber_name : String := "huber"

/-- An arbitrary unsupported loss-kind string, for exercising the assertion. -/
def l1_name : String := "l1"

/-- The only validation QRDQN.__init__ performs (qrdqn.py line 43):
assert loss_type in ["l2", "huber"].  No other constructor argument -- in
particular the learning rate lr, which is handed unvalidated to the optimizer
factory -- is checked; construction succeeds exactly when the assertion holds. -/
def qrdqn_init_ok (loss_type : String) (lr : ℚ) : Bool :=
  loss_type = l2_name || loss_type = huber_name

/-- SAC.__init__ (src/rljax/algorithm/sac.py lines 37-87) performs no
validation at all: every combination of learning rates is accepted. -/
def sac_init_ok (lr_actor lr_critic lr_alpha : ℚ) : Bool := true

/-- Fixed cumulative-probability midpoints of QRDQN.__init__ (qrdqn.py lines
77-79): cum_p_prime[i] = ((i/N) + ((i+1)/N)) / 2. -/
def cum_p_prime (num_quantiles : ℕ) : List ℚ :=
  (List.range num_quantiles).map
    (fun i => ((i : ℚ) / num_quantiles + ((i : ℚ) + 1) / num_quantiles) / 2)

/-- The online/target parameter pair held by QRDQN (qrdqn.py line 73). -/
structure QLState (P : Type) where
  params : P
  params_target : P

/-- qrdqn.py line 73: self.params = self.params_target = init(...). -/
def qrdqn_init_state {P : Type} (p0 : P) : QLState P :=
  { params := p0, params_target := p0 }

/-- qrdqn.py line 185 (QRDQN.load_params): both the online and the target
parameters are set to the loaded tree. -/
def qrdqn_load_params {P : Type} (s : QLState P) (loaded : P) : QLState P :=
  { params := loaded, params_target := loaded }

/-- The critic parameter pair held by SAC (sac.py line 73). -/
structure SACParams (P : Type) where
  params_critic : P
  params_critic_target : P

/-- sac.py line 73: self.params_critic = self.params_critic_target = init(...). -/
def sac_init_params {P : Type} (c0 : P) : SACParams P :=
  { params_critic := c0, params_critic_target := c0 }

/-!  TD3 (src/rljax/algorithm/td3.py).  The mutable instance state is the six
parameter/optimizer fields plus the learning-step counter; one update() call
is a pure transition on it.  The sampled batch, the per-call random key and
the gradient/optimizer arithmetic live behind the criticStep/actorStep
arguments (external collaborators), indexed by the learning step at which
they run. -/

/-- The instance state TD3.update reads and writes (td3.py lines 74-90 set it
up, lines 110-148 transition it). -/
structure TD3State (P O : Type) where
  params_critic : P
  opt_state_critic : O
  params_critic_target : P
  params_actor : P
  opt_state_actor : O
  params_actor_target : P
  learning_step : ℕ

/-- td3.py lines 74-84 plus the base-class step counter: both critic trees
start at the same initial tree, both actor trees likewise, learning_step at 0. -/
def td3_init_state {P O : Type} (c0 a0 : P) (oc0 oa0 : O) : TD3State P O :=
  { params_critic := c0, opt_state_critic := oc0, params_critic_target := c0,
    params_actor := a0, opt_state_actor := oa0, params_actor_target := a0,
    learning_step := 0 }

/-- td3.py lines 243-245 (TD3.load_params): critic and critic target are both
set to the loaded critic tree, actor and actor target to the loaded actor tree. -/
def td3_load_params {P O : Type} (s : TD3State P O) (c a : P) : TD3State P O :=
  { s with params_critic := c, params_critic_target := c,
           params_actor := a, params_actor_target := a }

/-- One TD3.update call (td3.py lines 110-148): increment the learning step;
update the critic and its optimizer state from the sampled batch (criticStep,
reading the target actor and target critic); Polyak-blend the critic target
every step (the base-class _update_target, modelled from the spec as the soft
argument since base.py is not under src/); and only when the new learning
step is a multiple of update_interval_policy, update the actor and its
optimizer state (actorStep, reading the fresh critic) and blend the actor
target. -/
def td3_update {P O : Type} (criticStep : ℕ → P → P → P → O → O × P)
    (actorStep : ℕ → P → P → O → O × P) (soft : P → P → P)
    (update_interval_policy : ℕ) (s : TD3State P O) : TD3State P O :=
  let step := s.learning_step + 1
  let rc := criticStep step s.params_critic s.params_actor_target
    s.params_critic_target s.opt_state_critic
  let pct := soft s.params_critic_target rc.2
  if step % update_interval_policy = 0 then
    let ra := actorStep step s.params_actor rc.2 s.opt_state_actor
    { params_critic := rc.2, opt_state_critic := rc.1, params_critic_target := pct,
      params_actor := ra.2, opt_state_actor := ra.1,
      params_actor_target := soft s.params_actor_target ra.2,
      learning_step := step }
  else
    { params_critic := rc.2, opt_state_critic := rc.1, params_critic_target := pct,
      params_actor := s.params_actor, opt_state_actor := s.opt_state_actor,
      params_actor_target := s.params_actor_target,
      learning_step := step }

/-- n successive TD3.update calls. -/
def td3_run {P O : Type} (criticStep : ℕ → P → P → P → O → O × P)
    (actorStep : ℕ → P → P → O → O × P) (soft : P → P → P)
    (update_interval_policy : ℕ) : ℕ → TD3State P O → TD3State P O
  | 0, s => s
  | n + 1, s =>
      td3_update criticStep actorStep soft update_interval_policy
        (td3_run criticStep actorStep soft update_interval_policy n s)

/-- td3.py lines 100-108 (TD3._explore): actor output plus exploration noise,
via add_noise(action, key, std, -1.0, 1.0); the key-derived normal draw is
the explicit noise vector. -/
def td3_explore (action noise : List ℚ) (std : ℚ) : List ℚ :=
  add_noise action noise std (-1) 1

/-- The target-action computation of TD3._loss_critic as the in-source 5-ary
add_noise kernel evaluates its first five arguments (td3.py lines 198-200):
the smoothing noise is scaled by std_target and added unclipped, only the sum
is clipped to the action bounds.  (The call site passes seven positional
arguments, which the kernel's signature does not accept.) -/
def td3_target_action_code (next_action noise : List ℚ) (std_target : ℚ) :
    List ℚ :=
  add_noise next_action noise std_target (-1) 1

/-- Modelled from the spec: the target-policy smoothing the td3.py call site
requests from the (absent) 7-parameter add_noise -- Gaussian noise scaled by
std_target, clipped to the interval from -clip_noise to clip_noise before
being added, the sum then clipped to the action bounds. -/
def td3_target_action_spec (next_action noise : List ℚ) (std_target clip_noise : ℚ) :
    List ℚ :=
  List.zipWith
    (fun ai ni => clip (ai + clip (ni * std_target) (-clip_noise) clip_noise) (-1) 1)
    next_action noise

/-!  Parameter trees and soft_update (src/rljax/util.py lines 71-80).  A
haiku parameter tree is a nested mapping whose leaves are tensors; we embed
it as a rose tree with rational leaves.  jax.tree_multimap combines two trees
leafwise and requires matching structure, so its embedding returns none on a
structural mismatch. -/

/-- A parameter tree: nested containers with numeric leaves. -/
inductive PTree where
  | leaf : ℚ → PTree
  | node : List PTree → PTree

mutual

/-- jax.tree_multimap on two trees: combine leaves with f; none on a
structural mismatch. -/
def tree_multimap (f : ℚ → ℚ → ℚ) : PTree → PTree → Option PTree
  | PTree.leaf a, PTree.leaf b => some (PTree.leaf (f a b))
  | PTree.node ts, PTree.node os => Option.map PTree.node (tree_multimap_children f ts os)
  | _, _ => none

/-- jax.tree_multimap on the child lists of two interior nodes. -/
def tree_multimap_children (f : ℚ → ℚ → ℚ) :
    List PTree → List PTree → Option (List PTree)
  | [], [] => some []
  | t :: ts, o :: os =>
      match tree_multimap f t o, tree_multimap_children f ts os with
      | some c, some cs => some (c :: cs)
      | _, _ => none
  | _, _ => none

end

/-- src/rljax/util.py soft_update: jax.tree_multimap of
(1 - tau) * target + tau * online over the two parameter trees. -/
def soft_update (target_params online_params : PTree) (tau : ℚ) : Option PTree :=
  tree_multimap (fun t s => (1 - tau) * t + tau * s) target_params online_params

/-!  Gaussian policy kernels (src/rljax/util.py lines 9-57).  The backend's
transcendental primitives (exp, tanh, log) and the key-derived standard
normal sampler are black boxes passed as function arguments; log2pi stands
for the constant log(2 * pi). -/

/-- src/rljax/util.py calculate_gaussian_log_prob:
(-0.5 * noise^2 - log_std).sum() - 0.5 * log(2*pi) * dim. -/
def calculate_gaussian_log_prob (log2pi : ℚ) (log_std noise : List ℚ) : ℚ :=
  (List.zipWith (fun ls n => -(1 / 2) * n ^ 2 - ls) log_std noise).sum -
    (1 / 2) * log2pi * (log_std.length : ℚ)

/-- src/rljax/util.py calculate_log_pi: Gaussian log-prob minus the tanh
Jacobian correction sum of log(1 - action^2 + 1e-6). -/
def calculate_log_pi (logf : ℚ → ℚ) (log2pi : ℚ)
    (log_std noise action : List ℚ) : ℚ :=
  calculate_gaussian_log_prob log2pi log_std noise -
    (action.map (fun a => logf (1 - a ^ 2 + 1 / 1000000))).sum

/-- src/rljax/util.py reparameterize: std = exp(log_std); noise =
normal(key, std.shape); action = tanh(mean + noise * std); returns the action
and its tanh-corrected log probability.  normal is the backend's pure
key-indexed standard normal draw (a deterministic function of key and shape). -/
def reparameterize (expf tanhf logf : ℚ → ℚ) (log2pi : ℚ)
    (normal : ℕ → ℕ → List ℚ) (mean log_std : List ℚ) (key : ℕ) :
    List ℚ × ℚ :=
  let std := log_std.map expf
  let noise := normal key std.length
  let action := List.zipWith3 (fun m n s => tanhf (m + n * s)) mean noise std
  (action, calculate_log_pi logf log2pi log_std noise action)

/-!  Specification-side definitions, written from the spec's words, to be
compared with the source embeddings above. -/

/-- Entry (b, i, j) of a (batch, N, M) tensor stored as nested lists. -/
def getD3 (td : List (List (List ℚ))) (b i j : ℕ) : ℚ :=
  ((td.getD b []).getD i []).getD j 0

/-- The quantile regression loss as the spec states it pointwise: per sample,
the elementwise base loss weighted by |cum_p_prime - (td < 0)|, summed over
the quantile axis carrying cum_p_prime, averaged over the other quantile
axis; per-sample values weighted by the importance weight and averaged over
the batch. -/
def quantileRegressionLossSpec (td : List (List (List ℚ))) (tau weight : List ℚ)
    (kind : LossType) (B N M : ℕ) : ℚ :=
  (∑ b ∈ Finset.range B, weight.getD b 0 *
    ((∑ j ∈ Finset.range M, ∑ i ∈ Finset.range N,
      baseLoss kind (getD3 td b i j) * |tau.getD i 0 - ltZeroInd (getD3 td b i j)|) /
      (M : ℚ))) / (B : ℚ)

/-- i is the index jnp.argmax describes: an in-range position holding a
maximal entry, with every strictly earlier entry strictly smaller. -/
def isFirstArgmax (l : List ℚ) (i : ℕ) : Prop :=
  i < l.length ∧ (∀ j < l.length, l.getD j 0 ≤ l.getD i 0) ∧
    ∀ j < i, l.getD j 0 < l.getD i 0

/-- A concrete critic step (an arbitrary optimizer/gradient black box) used
to evaluate the TD3 schedule on explicit inputs. -/
def criticStepEx : ℕ → ℚ → ℚ → ℚ → ℚ → ℚ × ℚ :=
  fun _ pc _ _ o => (o + 1, pc + 1)

/-- A concrete actor step used to evaluate the TD3 schedule on explicit
inputs. -/
def actorStepEx : ℕ → ℚ → ℚ → ℚ → ℚ × ℚ :=
  fun _ pa _ o => (o + 1, pa + 1)

/-- A concrete target blend (hard copy) used to evaluate the TD3 schedule on
explicit inputs. -/
def softEx : ℚ → ℚ → ℚ := fun _ o => o

/-- A concrete key-indexed normal sampler used to evaluate reparameterize on
explicit inputs. -/
def normalEx : ℕ → ℕ → List ℚ := fun k n => List.replicate n (k : ℚ)

/-- A concrete TD3 state (all trees and counters zero) used to evaluate the
schedule on explicit inputs. -/
def td3InitEx : TD3State ℚ ℚ := td3_init_state 0 0 0 0

/-!  Helper lemmas about the list-level tensor operations. -/

theorem getD_zipWith {α β γ : Type} (f : α → β → γ) (a : List α) (b : List β)
    (da : α) (db : β) (dc : γ) (j : ℕ) (h1 : j < a.length) (h2 : j < b.length) :
    (List.zipWith f a b).getD j dc = f (a.getD j da) (b.getD j db) := by
  have hz : j < (List.zipWith f a b).length := by
    rw [List.length_zipWith]; omega
  rw [List.getD_eq_getElem _ _ hz, List.getD_eq_getElem _ _ h1,
    List.getD_eq_getElem _ _ h2, List.getElem_zipWith]

theorem getD_map_of_lt {α β : Type} (f : α → β) (l : List α) (da : α) (db : β)
    (j : ℕ) (h : j < l.length) :
    (l.map f).getD j db = f (l.getD j da) := by
  have hm : j < (l.map f).length := by simpa using h
  rw [List.getD_eq_getElem _ _ hm, List.getD_eq_getElem _ _ h, List.getElem_map]

theorem getD_mem_of_lt {α : Type} (l : List α) (d : α) (j : ℕ) (h : j < l.length) :
    l.getD j d ∈ l := by
  rw [List.getD_eq_getElem _ _ h]
  exact List.getElem_mem h

theorem list_sum_getD : ∀ (l : List ℚ), l.sum = ∑ j ∈ Finset.range l.length, l.getD j 0
  | [] => by simp
  | x :: xs => by
    rw [List.sum_cons, list_sum_getD xs, List.length_cons, Finset.sum_range_succ']
    simp [List.getD_cons_succ, List.getD_cons_zero, add_comm]

theorem length_colSums : ∀ (m : List (List ℚ)) (M : ℕ), m ≠ [] →
    (∀ i < m.length, ((m.getD i []).length = M)) → (colSums m).length = M
  | [], _, hne, _ => absurd rfl hne
  | [r], M, _, hlen => by simpa using hlen 0 (by simp)
  | r :: r2 :: rs, M, _, hlen => by
    have hr : r.length = M := by simpa using hlen 0 (by simp)
    have ht : (colSums (r2 :: rs)).length = M := by
      refine length_colSums (r2 :: rs) M (by simp) ?_
      intro i hi
      have := hlen (i + 1) (by simpa using hi)
      simpa using this
    show (addVec r (colSums (r2 :: rs))).length = M
    simp [addVec, List.length_zipWith, hr, ht]

theorem getD_colSums : ∀ (m : List (List ℚ)) (M : ℕ), m ≠ [] →
    (∀ i < m.length, ((m.getD i []).length = M)) → ∀ j < M,
    (colSums m).getD j 0 = ∑ i ∈ Finset.range m.length, (m.getD i []).getD j 0
  | [], _, hne, _, _, _ => absurd rfl hne
  | [r], M, _, hlen, j, hj => by
    show r.getD j 0 = _
    simp
  | r :: r2 :: rs, M, _, hlen, j, hj => by
    have hr : r.length = M := by simpa using hlen 0 (by simp)
    have htlen : ∀ i < (r2 :: rs).length, (((r2 :: rs).getD i []).length = M) := by
      intro i hi
      have := hlen (i + 1) (by simpa using hi)
      simpa using this
    have ih := getD_colSums (r2 :: rs) M (by simp) htlen j hj
    have hclen : (colSums (r2 :: rs)).length = M :=
      length_colSums (r2 :: rs) M (by simp) htlen
    show (addVec r (colSums (r2 :: rs))).getD j 0 = _
    rw [addVec, getD_zipWith _ _ _ 0 0 0 j (by omega) (by omega)]
    have hlen2 : (r :: r2 :: rs).length = (r2 :: rs).length + 1 := rfl
    rw [hlen2, Finset.sum_range_succ']
    simp only [List.getD_cons_succ, List.getD_cons_zero]
    rw [← ih]
    ring

theorem listMax_mem : ∀ (l : List ℚ), l ≠ [] → listMax l ∈ l
  | [], hne => absurd rfl hne
  | [x], _ => by simp [listMax]
  | x :: y :: xs, _ => by
    rcases le_total (listMax (y :: xs)) x with h | h
    · simp [listMax, max_eq_left h]
    · have hm := listMax_mem (y :: xs) (by simp)
      have : listMax (x :: y :: xs) = listMax (y :: xs) := by
        simp [listMax, max_eq_right h]
      rw [this]
      exact List.mem_cons_of_mem x hm

theorem le_listMax : ∀ (l : List ℚ) (x : ℚ), x ∈ l → x ≤ listMax l
  | [], x, hx => absurd hx (List.not_mem_nil x)
  | [y], x, hx => by
    simp only [List.mem_singleton] at hx
    simp [listMax, hx]
  | y :: z :: xs, x, hx => by
    have hunf : listMax (y :: z :: xs) = max y (listMax (z :: xs)) := by
      simp [listMax]
    rcases List.mem_cons.mp hx with h | h
    · rw [hunf, h]; exact le_max_left _ _
    · rw [hunf]
      exact le_trans (le_listMax (z :: xs) x h) (le_max_right _ _)

theorem argmax_lt_length : ∀ (l : List ℚ), l ≠ [] → argmax l < l.length
  | [], hne => absurd rfl hne
  | [x], _ => by simp [argmax]
  | x :: y :: xs, _ => by
    by_cases h : listMax (y :: xs) ≤ x
    · simp [argmax, h]
    · have ih := argmax_lt_length (y :: xs) (by simp)
      simp only [List.length_cons] at ih ⊢
      simp only [argmax, if_neg h]
      omega

theorem getD_argmax : ∀ (l : List ℚ), l ≠ [] → l.getD (argmax l) 0 = listMax l
  | [], hne => absurd rfl hne
  | [x], _ => by simp [argmax, listMax]
  | x :: y :: xs, _ => by
    have hunf : listMax (x :: y :: xs) = max x (listMax (y :: xs)) := by
      simp [listMax]
    by_cases h : listMax (y :: xs) ≤ x
    · simp [argmax, h, hunf, max_eq_left h]
    · have ih := getD_argmax (y :: xs) (by simp)
      push_neg at h
      simp only [argmax, if_neg (not_le.mpr h), List.getD_cons_succ, hunf,
        max_eq_right (le_of_lt h)]
      exact ih

theorem getD_lt_of_lt_argmax : ∀ (l : List ℚ) (j : ℕ), j < argmax l →
    l.getD j 0 < listMax l
  | [], j, hj => by simp [argmax] at hj
  | [x], j, hj => by simp [argmax] at hj
  | x :: y :: xs, j, hj => by
    have hunf : listMax (x :: y :: xs) = max x (listMax (y :: xs)) := by
      simp [listMax]
    by_cases h : listMax (y :: xs) ≤ x
    · simp [argmax, h] at hj
    · push_neg at h
      simp only [argmax, if_neg (not_le.mpr h)] at hj
      rw [hunf, max_eq_right (le_of_lt h)]
      match j with
      | 0 => simpa using h
      | j + 1 =>
        have := getD_lt_of_lt_argmax (y :: xs) j (by omega)
        simpa using this

theorem isFirstArgmax_argmax (l : List ℚ) (hne : l ≠ []) :
    isFirstArgmax l (argmax l) := by
  have hlt := argmax_lt_length l hne
  have hval := getD_argmax l hne
  refine ⟨hlt, ?_, ?_⟩
  · intro j hj
    rw [hval]
    exact le_listMax l _ (getD_mem_of_lt l 0 j hj)
  · intro j hj
    rw [hval]
    exact getD_lt_of_lt_argmax l j hj

mutual

theorem tree_multimap_right_of (f : ℚ → ℚ → ℚ) (hf : ∀ a b, f a b = b) :
    ∀ (t o r : PTree), tree_multimap f t o = some r → r = o
  | PTree.leaf a, PTree.leaf b, r, h => by
    simp only [tree_multimap, hf, Option.some.injEq] at h
    exact h.symm
  | PTree.node ts, PTree.node os, r, h => by
    simp only [tree_multimap] at h
    match hcs : tree_multimap_children f ts os with
    | none => rw [hcs] at h; simp at h
    | some cs =>
      rw [hcs] at h
      simp only [Option.map_some', Option.some.injEq] at h
      have := tree_multimap_children_right_of f hf ts os cs hcs
      rw [← h, this]
  | PTree.leaf _, PTree.node _, r, h => by simp [tree_multimap] at h
  | PTree.node _, PTree.leaf _, r, h => by simp [tree_multimap] at h

theorem tree_multimap_children_right_of (f : ℚ → ℚ → ℚ) (hf : ∀ a b, f a b = b) :
    ∀ (ts os cs : List PTree), tree_multimap_children f ts os = some cs → cs = os
  | [], [], cs, h => by
    simp only [tree_multimap_children, Option.some.injEq] at h
    exact h.symm
  | t :: ts, o :: os, cs, h => by
    simp only [tree_multimap_children] at h
    match hc : tree_multimap f t o, hrest : tree_multimap_children f ts os with
    | some c, some rest =>
      rw [hc, hrest] at h
      simp only [Option.some.injEq] at h
      have h1 := tree_multimap_right_of f hf t o c hc
      have h2 := tree_multimap_children_right_of f hf ts os rest hrest
      rw [← h, h1, h2]
    | some c, none => rw [hc, hrest] at h; simp at h
    | none, _ => rw [hc] at h; simp at h
  | [], _ :: _, cs, h => by simp [tree_multimap_children] at h
  | _ :: _, [], cs, h => by simp [tree_multimap_children] at h

end

mutual

theorem tree_multimap_left_of (f : ℚ → ℚ → ℚ) (hf : ∀ a b, f a b = a) :
    ∀ (t o r : PTree), tree_multimap f t o = some r → r = t
  | PTree.leaf a, PTree.leaf b, r, h => by
    simp only [tree_multimap, hf, Option.some.injEq] at h
    exact h.symm
  | PTree.node ts, PTree.node os, r, h => by
    simp only [tree_multimap] at h
    match hcs : tree_multimap_children f ts os with
    | none => rw [hcs] at h; simp at h
    | some cs =>
      rw [hcs] at h
      simp only [Option.map_some', Option.some.injEq] at h
      have := tree_multimap_children_left_of f hf ts os cs hcs
      rw [← h, this]
  | PTree.leaf _, PTree.node _, r, h => by simp [tree_multimap] at h
  | PTree.node _, PTree.leaf _, r, h => by simp [tree_multimap] at h

theorem tree_multimap_children_left_of (f : ℚ → ℚ → ℚ) (hf : ∀ a b, f a b = a) :
    ∀ (ts os cs : List PTree), tree_multimap_children f ts os = some cs → cs = ts
  | [], [], cs, h => by
    simp only [tree_multimap_children, Option.some.injEq] at h
    exact h.symm
  | t :: ts, o :: os, cs, h => by
    simp only [tree_multimap_children] at h
    match hc : tree_multimap f t o, hrest : tree_multimap_children f ts os with
    | some c, some rest =>
      rw [hc, hrest] at h
      simp only [Option.some.injEq] at h
      have h1 := tree_multimap_left_of f hf t o c hc
      have h2 := tree_multimap_children_left_of f hf ts os rest hrest
      rw [← h, h1, h2]
    | some c, none => rw [hc, hrest] at h; simp at h
    | none, _ => rw [hc] at h; simp at h
  | [], _ :: _, cs, h => by simp [tree_multimap_children] at h
  | _ :: _, [], cs, h => by simp [tree_multimap_children] at h

end

theorem per_sample_quantile_loss (g : ℚ → ℚ → ℚ) (tau : List ℚ)
    (m : List (List ℚ)) (N M : ℕ) (htau : tau.length = N) (hm : m.length = N)
    (hrows : ∀ r ∈ m, r.length = M) (hN : 0 < N) :
    listMean (colSums (List.zipWith (fun p row => row.map (fun x => g p x)) tau m)) =
      (∑ j ∈ Finset.range M, ∑ i ∈ Finset.range N,
        g (tau.getD i 0) ((m.getD i []).getD j 0)) / (M : ℚ) := by
  set E := List.zipWith (fun p row => row.map (fun x => g p x)) tau m with hE
  have hElen : E.length = N := by
    rw [hE, List.length_zipWith, htau, hm, min_self]
  have hErow : ∀ i < N, E.getD i [] =
      (m.getD i []).map (fun x => g (tau.getD i 0) x) := by
    intro i hi
    rw [hE, getD_zipWith _ _ _ 0 [] [] i (by omega) (by omega)]
  have hErowlen : ∀ i < E.length, ((E.getD i []).length = M) := by
    intro i hi
    rw [hElen] at hi
    rw [hErow i hi, List.length_map]
    exact hrows _ (getD_mem_of_lt m [] i (by omega))
  have hEne : E ≠ [] := by
    intro hc
    rw [hc] at hElen
    simp at hElen
    omega
  have hclen : (colSums E).length = M := length_colSums E M hEne hErowlen
  rw [listMean, hclen, list_sum_getD, hclen]
  congr 1
  refine Finset.sum_congr rfl ?_
  intro j hj
  rw [Finset.mem_range] at hj
  rw [getD_colSums E M hEne hErowlen j hj, hElen]
  refine Finset.sum_congr rfl ?_
  intro i hi
  rw [Finset.mem_range] at hi
  rw [hErow i hi, getD_map_of_lt _ _ 0 0 j ?_]
  have := hrows _ (getD_mem_of_lt m [] i (by omega))
  omega

theorem batched_quantile_loss (g : ℚ → ℚ → ℚ) (td : List (List (List ℚ)))
    (tau w : List ℚ) (B N M : ℕ) (htd : td.length = B) (hw : w.length = B)
    (htau : tau.length = N) (hmat : ∀ m ∈ td, m.length = N)
    (hrows : ∀ m ∈ td, ∀ r ∈ m, r.length = M) (hN : 0 < N) :
    listMean (List.zipWith (· * ·)
      (td.map (fun m =>
        listMean (colSums (List.zipWith (fun p row => row.map (fun x => g p x)) tau m))))
      w) =
    (∑ b ∈ Finset.range B, w.getD b 0 *
      ((∑ j ∈ Finset.range M, ∑ i ∈ Finset.range N,
        g (tau.getD i 0) (((td.getD b []).getD i []).getD j 0)) / (M : ℚ))) / (B : ℚ) := by
  set bl := td.map (fun m =>
    listMean (colSums (List.zipWith (fun p row => row.map (fun x => g p x)) tau m))) with hbl
  have hbllen : bl.length = B := by rw [hbl, List.length_map, htd]
  have hzlen : (List.zipWith (· * ·) bl w).length = B := by
    rw [List.length_zipWith, hbllen, hw, min_self]
  rw [listMean, hzlen, list_sum_getD, hzlen]
  congr 1
  refine Finset.sum_congr rfl ?_
  intro b hb
  rw [Finset.mem_range] at hb
  rw [getD_zipWith _ _ _ 0 0 0 b (by omega) (by omega), hbl,
    getD_map_of_lt _ _ [] 0 b (by omega)]
  have hmem : td.getD b [] ∈ td := getD_mem_of_lt td [] b (by omega)
  rw [per_sample_quantile_loss g tau (td.getD b []) N M htau (hmat _ hmem)
    (hrows _ hmem) hN]
  ring

theorem sum_map_mul_left_list (c : ℚ) (g : ℚ → ℚ) :
    ∀ (l : List ℚ), (l.map (fun x => c * g x)).sum = c * (l.map g).sum
  | [] => by simp
  | x :: xs => by
    simp only [List.map_cons, List.sum_cons, sum_map_mul_left_list c g xs]
    ring

theorem getD_zipWith3 {α β γ δ : Type} (f : α → β → γ → δ) :
    ∀ (a : List α) (b : List β) (c : List γ) (da : α) (db : β) (dc : γ) (dd : δ)
      (j : ℕ), j < a.length → j < b.length → j < c.length →
      (List.zipWith3 f a b c).getD j dd = f (a.getD j da) (b.getD j db) (c.getD j dc)
  | [], _, _, _, _, _, _, j, h1, _, _ => by simp at h1
  | _ :: _, [], _, _, _, _, _, j, _, h2, _ => by simp at h2
  | _ :: _, _ :: _, [], _, _, _, _, j, _, _, h3 => by simp at h3
  | x :: xs, y :: ys, z :: zs, da, db, dc, dd, 0, _, _, _ => by
    simp [List.zipWith3]
  | x :: xs, y :: ys, z :: zs, da, db, dc, dd, j + 1, h1, h2, h3 => by
    have ih := getD_zipWith3 f xs ys zs da db dc dd j
      (by simpa using h1) (by simpa using h2) (by simpa using h3)
    simpa [List.zipWith3, List.getD_cons_succ] using ih

theorem mem_zipWith_imp {α β γ : Type} (f : α → β → γ) :
    ∀ (a : List α) (b : List β) (y : γ), y ∈ List.zipWith f a b →
      ∃ x n, y = f x n
  | [], _, y, hy => by simp at hy
  | _ :: _, [], y, hy => by simp at hy
  | x :: xs, n :: ns, y, hy => by
    rcases List.mem_cons.mp hy with h | h
    · exact ⟨x, n, h⟩
    · exact mem_zipWith_imp f xs ns y h

theorem clip_mem_Icc (v lo hi : ℚ) (h : lo ≤ hi) : lo ≤ clip v lo hi ∧ clip v lo hi ≤ hi := by
  constructor
  · exact le_min (le_max_right v lo) h
  · exact min_le_right _ _

/-!  Claim theorems. -/

/-- C5: soft_update computes the elementwise blend (1 - tau) * target +
tau * online over matching tree structure; with tau = 1 the result (defined
exactly when the structures match) is the online tree, with tau = 0 it is the
target tree unchanged, and a hard-copy target update (the tau = 1 blend)
re-establishes target == online exactly. -/
theorem soft_update_blend_spec :
    (∀ (a b tau : ℚ), soft_update (PTree.leaf a) (PTree.leaf b) tau =
      some (PTree.leaf ((1 - tau) * a + tau * b))) ∧
    (∀ (t o r : PTree), soft_update t o 1 = some r → r = o) ∧
    (∀ (t o r : PTree), soft_update t o 0 = some r → r = t) := by
  refine ⟨fun a b tau => rfl, ?_, ?_⟩
  · intro t o r h
    exact tree_multimap_right_of _ (fun a b => by ring) t o r h
  · intro t o r h
    exact tree_multimap_left_of _ (fun a b => by ring) t o r h

theorem soft_update_blend_spec_witness :
    ((PTree.node [PTree.leaf ((1 - 1) * 2 + 1 * 5), PTree.leaf ((1 - 1) * 3 + 1 * 7)]) =
      PTree.node [PTree.leaf 5, PTree.leaf 7]) ∧
    ((PTree.node [PTree.leaf ((1 - 0) * 2 + 0 * 5), PTree.leaf ((1 - 0) * 3 + 0 * 7)]) =
      PTree.node [PTree.leaf 2, PTree.leaf 3]) := by
  constructor
  · exact soft_update_blend_spec.2.1
      (PTree.node [PTree.leaf 2, PTree.leaf 3])
      (PTree.node [PTree.leaf 5, PTree.leaf 7])
      (PTree.node [PTree.leaf ((1 - 1) * 2 + 1 * 5), PTree.leaf ((1 - 1) * 3 + 1 * 7)]) rfl
  · exact soft_update_blend_spec.2.2
      (PTree.node [PTree.leaf 2, PTree.leaf 3])
      (PTree.node [PTree.leaf 5, PTree.leaf 7])
      (PTree.node [PTree.leaf ((1 - 0) * 2 + 0 * 5), PTree.leaf ((1 - 0) * 3 + 0 * 7)]) rfl

/-- C7 counterexample: construction succeeds with a negative (QRDQN) and a
zero/negative (SAC) learning rate, so an invalid learning rate is not raised
at construction time, contrary to the claim. -/
theorem init_accepts_bad_lr :
    qrdqn_init_ok huber_name (-1) = true ∧ ((-1 : ℚ) < 0) ∧
      sac_init_ok 0 (-1) 0 = true := by
  refine ⟨?_, by norm_num, rfl⟩
  rw [qrdqn_init_ok]
  simp [l2_name, huber_name]

/-- C7 amended: the only construction-time validation is QRDQN's loss-kind
assertion -- construction fails exactly on an unsupported loss-kind string,
for every learning rate, and SAC's construction never fails; learning rates
and action dimensionality are not validated at construction. -/
theorem init_validation_spec :
    (∀ (loss_type : String) (lr : ℚ), qrdqn_init_ok loss_type lr = true ↔
      (loss_type = l2_name ∨ loss_type = huber_name)) ∧
    (qrdqn_init_ok l1_name 1 = false) ∧
    (∀ (lr_actor lr_critic lr_alpha : ℚ),
      sac_init_ok lr_actor lr_critic lr_alpha = true) := by
  refine ⟨?_, ?_, fun _ _ _ => rfl⟩
  · intro lt lr
    rw [qrdqn_init_ok]
    simp
  · rw [qrdqn_init_ok]
    simp [l1_name, l2_name, huber_name]

/-- C9: at construction every algorithm's target tree equals its online tree
(the same value, hence identical structure), and QRDQN's and TD3's
load_params set online and target to the identical loaded tree, giving
target == online again after a restore. -/
theorem target_equals_online_init_load :
    (∀ (P : Type) (p0 : P), (qrdqn_init_state p0).params_target = (qrdqn_init_state p0).params) ∧
    (∀ (P O : Type) (c0 a0 : P) (oc0 oa0 : O),
      (td3_init_state c0 a0 oc0 oa0 : TD3State P O).params_critic_target =
        (td3_init_state c0 a0 oc0 oa0 : TD3State P O).params_critic ∧
      (td3_init_state c0 a0 oc0 oa0 : TD3State P O).params_actor_target =
        (td3_init_state c0 a0 oc0 oa0 : TD3State P O).params_actor) ∧
    (∀ (P : Type) (c0 : P), (sac_init_params c0).params_critic_target =
      (sac_init_params c0).params_critic) ∧
    (∀ (P : Type) (s : QLState P) (loaded : P),
      (qrdqn_load_params s loaded).params = loaded ∧
      (qrdqn_load_params s loaded).params_target = loaded) ∧
    (∀ (P O : Type) (s : TD3State P O) (c a : P),
      (td3_load_params s c a).params_critic = c ∧
      (td3_load_params s c a).params_critic_target = c ∧
      (td3_load_params s c a).params_actor = a ∧
      (td3_load_params s c a).params_actor_target = a) :=
  ⟨fun _ _ => rfl, fun _ _ _ _ _ _ => ⟨rfl, rfl⟩, fun _ _ => rfl,
    fun _ _ _ => ⟨rfl, rfl⟩, fun _ _ _ _ _ => ⟨rfl, rfl, rfl, rfl⟩⟩

/-- C10: every component of TD3's exploration action lies in [-1, 1], for
every actor map, parameter tree, state and sampled noise, because add_noise
clips its result to the action bounds regardless of the noise magnitude. -/
theorem td3_explore_bounded (Pa St : Type) (actor_apply : Pa → St → List ℚ)
    (p : Pa) (s : St) (noise : List ℚ) (std : ℚ) (y : ℚ)
    (hy : y ∈ td3_explore (actor_apply p s) noise std) : -1 ≤ y ∧ y ≤ 1 := by
  obtain ⟨x, n, rfl⟩ := mem_zipWith_imp _ (actor_apply p s) noise y hy
  exact clip_mem_Icc (x + n * std) (-1) 1 (by norm_num)

theorem td3_explore_bounded_witness : (-1 : ℚ) ≤ 1 ∧ (1 : ℚ) ≤ 1 :=
  td3_explore_bounded Unit Unit (fun _ _ => [0]) () () [5] (1 / 5) 1 (by
    show (1 : ℚ) ∈ [clip (0 + 5 * (1 / 5)) (-1) 1]
    norm_num [clip])

/-- C3: evaluating TD3's target-action computation at a concrete input.  The
in-source 5-parameter add_noise adds the scaled noise unclipped (the td3.py
call site passes seven positional arguments, two more than the kernel's
signature accepts), so the computed target action differs from the
clipped-noise smoothing the claim and the call site describe: with
next_action 0, std_target 1/5, clip_noise 1/2 and a sampled normal of 5, the
code's reading yields 1 while the claimed computation yields 1/2. -/
theorem td3_target_action_divergence :
    td3_target_action_code [0] [5] (1 / 5) = [1] ∧
    td3_target_action_spec [0] [5] (1 / 5) (1 / 2) = [1 / 2] ∧
    td3_target_action_code [0] [5] (1 / 5) ≠
      td3_target_action_spec [0] [5] (1 / 5) (1 / 2) := by
  have h1 : td3_target_action_code [0] [5] (1 / 5) = [1] := by
    norm_num [td3_target_action_code, add_noise, clip, min_def, max_def]
  have h2 : td3_target_action_spec [0] [5] (1 / 5) (1 / 2) = [1 / 2] := by
    norm_num [td3_target_action_spec, clip, min_def, max_def]
  refine ⟨h1, h2, ?_⟩
  rw [h1, h2]
  intro hc
  have := List.head_eq_of_cons_eq hc
  norm_num at this

/-- C1: the quantile regression loss kernel (used by QRDQN's _loss) equals
the elementwise base loss -- Huber with kappa = 1 for the huber kind, plain
squared error for the l2 kind, both selectable -- multiplied by
|cum_p_prime - (td < 0)|, summed over one quantile axis, averaged over the
other, weighted per sample by the importance weight and averaged over the
batch; the huber kind agrees with the in-source calculate_quantile_huber_loss
at kappa = 1. -/
theorem quantile_loss_formula (td : List (List (List ℚ))) (tau w : List ℚ)
    (kind : LossType) (B N M : ℕ) (htd : td.length = B) (hw : w.length = B)
    (htau : tau.length = N) (hmat : ∀ m ∈ td, m.length = N)
    (hrows : ∀ m ∈ td, ∀ r ∈ m, r.length = M) (hN : 0 < N) :
    quantile_loss td tau w kind = quantileRegressionLossSpec td tau w kind B N M ∧
    quantile_loss td tau w LossType.huber = calculate_quantile_huber_loss td tau w 1 := by
  constructor
  · have h := batched_quantile_loss (fun p x => baseLoss kind x * |p - ltZeroInd x|)
      td tau w B N M htd hw htau hmat hrows hN
    rw [quantile_loss, quantileRegressionLossSpec]
    simpa [getD3] using h
  · rw [quantile_loss, calculate_quantile_huber_loss]
    simp [baseLoss, div_one]

theorem quantile_loss_formula_witness :
    (quantile_loss [[[2]]] [1 / 2] [1] LossType.huber =
      quantileRegressionLossSpec [[[2]]] [1 / 2] [1] LossType.huber 1 1 1) ∧
    (quantile_loss [[[2]]] [1 / 2] [1] LossType.huber =
      calculate_quantile_huber_loss [[[2]]] [1 / 2] [1] 1) :=
  quantile_loss_formula [[[2]]] [1 / 2] [1] LossType.huber 1 1 1 rfl rfl rfl
    (by simp) (by simp) (by norm_num)

theorem half_weight (x : ℚ) : |1 / 2 - ltZeroInd x| = 1 / 2 := by
  rw [ltZeroInd]
  by_cases hx : x < 0
  · rw [if_pos hx, abs_of_neg (by norm_num)]
    norm_num
  · rw [if_neg hx, sub_zero, abs_of_pos (by norm_num)]

theorem c6_zip_sum : ∀ (l : List ℚ),
    (List.zipWith (· * ·)
      ((l.map (fun x => [[x]])).map (fun m => listMean (colSums (List.zipWith
        (fun p row => row.map (fun x => huber_loss x 1 * |p - ltZeroInd x| / 1))
        [1 / 2] m))))
      (l.map (fun _ => (1 : ℚ)))).sum =
    (1 / 2) * (l.map (fun x => huber_loss x 1)).sum
  | [] => by simp
  | x :: xs => by
    simp only [List.map_cons, List.map_nil, List.zipWith_cons_cons,
      List.zipWith_nil_left, List.sum_cons, c6_zip_sum xs]
    have hhead : listMean (colSums
        [[huber_loss x 1 * |1 / 2 - ltZeroInd x| / 1]]) =
        huber_loss x 1 * (1 / 2) := by
      have hcol : colSums [[huber_loss x 1 * |1 / 2 - ltZeroInd x| / 1]] =
          [huber_loss x 1 * |1 / 2 - ltZeroInd x| / 1] := rfl
      rw [hcol, listMean, half_weight]
      simp
    rw [hhead]
    ring

/-- C6 counterexample: at the TD input 2 (one sample, one quantile,
cum_p_prime = [1/2], unit weight) the quantile-Huber loss is 3/4 while the
standard Huber loss (kappa = 1) of the same input is 3/2, so the two are not
equal as the claim states. -/
theorem quantile_huber_loss_not_huber :
    calculate_quantile_huber_loss [[[2]]] [1 / 2] [1] 1 ≠ huber_loss 2 1 := by
  have habs : |(2 : ℚ)| = 2 := abs_of_pos (by norm_num)
  have hhub : huber_loss 2 1 = 3 / 2 := by
    rw [huber_loss, habs]
    norm_num
  have hq : calculate_quantile_huber_loss [[[2]]] [1 / 2] [1] 1 = 3 / 4 := by
    rw [calculate_quantile_huber_loss]
    simp [colSums, listMean, hhub]
    rw [← one_div, half_weight]
    norm_num
  rw [hq, hhub]
  norm_num

/-- C6 amended: with N_quantiles = 1 and cum_p_prime = [1/2], the
quantile-Huber loss (unit importance weights) equals one half of the
batch-mean standard Huber loss (kappa = 1) of the same TD input -- the
|1/2 - indicator| factor contributes a constant 1/2, so the reduction holds
only up to that factor. -/
theorem quantile_huber_loss_half_huber (tds : List ℚ) (hne : tds ≠ []) :
    calculate_quantile_huber_loss (tds.map (fun x => [[x]])) [1 / 2]
      (tds.map (fun _ => 1)) 1 =
    (1 / 2) * listMean (tds.map (fun x => huber_loss x 1)) := by
  rw [calculate_quantile_huber_loss, listMean, listMean]
  have hlen : (List.zipWith (· * ·)
      ((tds.map (fun x => [[x]])).map (fun m => listMean (colSums (List.zipWith
        (fun p row => row.map (fun x => huber_loss x 1 * |p - ltZeroInd x| / 1))
        [1 / 2] m))))
      (tds.map (fun _ => (1 : ℚ)))).length = tds.length := by
    simp [List.length_zipWith]
  rw [hlen, c6_zip_sum tds, List.length_map, mul_div_assoc]

theorem quantile_huber_loss_half_huber_witness :
    calculate_quantile_huber_loss ([2].map (fun x => [[x]])) [1 / 2]
      ([2].map (fun _ => 1)) 1 =
    (1 / 2) * listMean ([2].map (fun x => huber_loss x 1)) :=
  quantile_huber_loss_half_huber [2] (by simp)

/-- C8: reparameterize is a pure function of (mean, log_std, key) -- the
key-derived normal draw is a deterministic function of the key -- so equal
inputs give the identical (action, log_prob) pair, and the action is
tanh(mean + noise * exp(log_std)) componentwise. -/
theorem reparameterize_deterministic (expf tanhf logf : ℚ → ℚ) (log2pi : ℚ)
    (normal : ℕ → ℕ → List ℚ) (mean log_std mean2 log_std2 : List ℚ)
    (key key2 : ℕ) (h1 : mean = mean2) (h2 : log_std = log_std2)
    (h3 : key = key2) :
    reparameterize expf tanhf logf log2pi normal mean log_std key =
      reparameterize expf tanhf logf log2pi normal mean2 log_std2 key2 ∧
    ∀ i, i < mean.length → i < log_std.length →
      i < (normal key (log_std.map expf).length).length →
      (reparameterize expf tanhf logf log2pi normal mean log_std key).1.getD i 0 =
        tanhf (mean.getD i 0 +
          (normal key (log_std.map expf).length).getD i 0 *
            expf (log_std.getD i 0)) := by
  refine ⟨by rw [h1, h2, h3], ?_⟩
  intro i him hil hin
  show (List.zipWith3 (fun m n s => tanhf (m + n * s)) mean
    (normal key (log_std.map expf).length) (log_std.map expf)).getD i 0 = _
  rw [getD_zipWith3 _ _ _ _ 0 0 0 0 i him hin (by simpa using hil),
    getD_map_of_lt expf log_std 0 0 i hil]

theorem reparameterize_deterministic_witness :
    (reparameterize id id id 0 normalEx [1] [0] 3 =
      reparameterize id id id 0 normalEx [1] [0] 3) ∧
    (reparameterize id id id 0 normalEx [1] [0] 3).1.getD 0 0 = 1 := by
  have h := reparameterize_deterministic id id id 0 normalEx [1] [0] [1] [0] 3 3
    rfl rfl rfl
  refine ⟨h.1, ?_⟩
  have h2 := h.2 0 (by simp) (by simp) (by simp [normalEx])
  simpa [normalEx] using h2

/-- C2: in QRDQN's compute-loss, the next-state quantile target with double_q
enabled gathers the target network's quantiles at the greedy action -- the
first index maximizing the online network's mean-over-quantiles output -- and
with double_q disabled it is, per quantile row, the elementwise maximum over
actions of the target network's quantiles. -/
theorem qrdqn_next_quantile_target (q_on q_tg : List (List (List ℚ)))
    (B N A : ℕ) (hon : q_on.length = B) (htg : q_tg.length = B)
    (honN : ∀ m ∈ q_on, m.length = N) (htgN : ∀ m ∈ q_tg, m.length = N)
    (honA : ∀ m ∈ q_on, ∀ r ∈ m, r.length = A)
    (htgA : ∀ m ∈ q_tg, ∀ r ∈ m, r.length = A) (hN : 0 < N) (hA : 0 < A) :
    ∀ b < B,
      ((qrdqn_next_quantile true q_on q_tg).getD b [] =
          colAt (q_tg.getD b []) (qrdqn_forward (q_on.getD b [])) ∧
        isFirstArgmax (colMeans (q_on.getD b []))
          (qrdqn_forward (q_on.getD b []))) ∧
      ∀ n < N,
        ((qrdqn_next_quantile false q_on q_tg).getD b []).getD n 0 =
            listMax ((q_tg.getD b []).getD n []) ∧
          listMax ((q_tg.getD b []).getD n []) ∈ (q_tg.getD b []).getD n [] ∧
          ∀ x ∈ (q_tg.getD b []).getD n [],
            x ≤ listMax ((q_tg.getD b []).getD n []) := by
  intro b hb
  have hbon : b < q_on.length := by omega
  have hbtg : b < q_tg.length := by omega
  have hmon : q_on.getD b [] ∈ q_on := getD_mem_of_lt _ _ _ hbon
  have hmtg : q_tg.getD b [] ∈ q_tg := getD_mem_of_lt _ _ _ hbtg
  refine ⟨⟨?_, ?_⟩, ?_⟩
  · show (get_quantile_at_action q_tg (q_on.map qrdqn_forward)).getD b [] = _
    rw [get_quantile_at_action,
      getD_zipWith colAt q_tg (q_on.map qrdqn_forward) [] 0 [] b hbtg
        (by simpa using hbon),
      getD_map_of_lt qrdqn_forward q_on [] 0 b hbon]
  · have hlen : (colMeans (q_on.getD b [])).length = A := by
      rw [colMeans, List.length_map]
      refine length_colSums _ A ?_ ?_
      · have h1 : (q_on.getD b []).length = N := honN _ hmon
        intro hc
        rw [hc] at h1
        simp at h1
        omega
      · intro i hi
        exact honA _ hmon _ (getD_mem_of_lt _ _ _ hi)
    have hne : colMeans (q_on.getD b []) ≠ [] := by
      intro hc
      rw [hc] at hlen
      simp at hlen
      omega
    exact isFirstArgmax_argmax _ hne
  · intro n hn
    have hnlt : n < (q_tg.getD b []).length := by
      rw [htgN _ hmtg]
      omega
    have hrowmem : (q_tg.getD b []).getD n [] ∈ q_tg.getD b [] :=
      getD_mem_of_lt _ _ _ hnlt
    have hrowne : (q_tg.getD b []).getD n [] ≠ [] := by
      have h1 := htgA _ hmtg _ hrowmem
      intro hc
      rw [hc] at h1
      simp at h1
      omega
    refine ⟨?_, listMax_mem _ hrowne, fun x hx => le_listMax _ x hx⟩
    show ((q_tg.map (fun m => m.map listMax)).getD b []).getD n 0 = _
    rw [getD_map_of_lt (fun m => m.map listMax) q_tg [] [] b hbtg,
      getD_map_of_lt listMax (q_tg.getD b []) [] 0 n hnlt]

theorem qrdqn_next_quantile_target_witness :
    ((qrdqn_next_quantile true [[[1, 10], [3, 0]]] [[[5, 6], [7, 8]]]).getD 0 [] =
        colAt ([[[5, 6], [7, 8]]].getD 0 [])
          (qrdqn_forward ([[[1, 10], [3, 0]]].getD 0 []))) ∧
    isFirstArgmax (colMeans ([[[1, 10], [3, 0]]].getD 0 []))
      (qrdqn_forward ([[[1, 10], [3, 0]]].getD 0 [])) ∧
    ((qrdqn_next_quantile false [[[1, 10], [3, 0]]] [[[5, 6], [7, 8]]]).getD 0 []).getD 0 0 =
      listMax (([[[5, 6], [7, 8]]].getD 0 []).getD 0 []) := by
  have h := qrdqn_next_quantile_target [[[1, 10], [3, 0]]] [[[5, 6], [7, 8]]]
    1 2 2 rfl rfl (by simp) (by simp) (by simp) (by simp)
    (by norm_num) (by norm_num) 0 (by norm_num)
  exact ⟨h.1.1, h.1.2, (h.2 0 (by norm_num)).1⟩

theorem td3_update_learning_step {P O : Type} (criticStep : ℕ → P → P → P → O → O × P)
    (actorStep : ℕ → P → P → O → O × P) (soft : P → P → P) (I : ℕ)
    (s : TD3State P O) :
    (td3_update criticStep actorStep soft I s).learning_step =
      s.learning_step + 1 := by
  simp only [td3_update]
  split <;> rfl

theorem td3_run_learning_step {P O : Type} (criticStep : ℕ → P → P → P → O → O × P)
    (actorStep : ℕ → P → P → O → O × P) (soft : P → P → P) (I : ℕ) :
    ∀ (n : ℕ) (s : TD3State P O),
      (td3_run criticStep actorStep soft I n s).learning_step =
        s.learning_step + n
  | 0, s => rfl
  | n + 1, s => by
    show (td3_update criticStep actorStep soft I
      (td3_run criticStep actorStep soft I n s)).learning_step = _
    rw [td3_update_learning_step,
      td3_run_learning_step criticStep actorStep soft I n s]
    omega

theorem td3_update_not_interval {P O : Type} (criticStep : ℕ → P → P → P → O → O × P)
    (actorStep : ℕ → P → P → O → O × P) (soft : P → P → P) (I : ℕ)
    (s : TD3State P O) (h : (s.learning_step + 1) % I ≠ 0) :
    td3_update criticStep actorStep soft I s =
      { params_critic := (criticStep (s.learning_step + 1) s.params_critic
          s.params_actor_target s.params_critic_target s.opt_state_critic).2,
        opt_state_critic := (criticStep (s.learning_step + 1) s.params_critic
          s.params_actor_target s.params_critic_target s.opt_state_critic).1,
        params_critic_target := soft s.params_critic_target
          (criticStep (s.learning_step + 1) s.params_critic
            s.params_actor_target s.params_critic_target s.opt_state_critic).2,
        params_actor := s.params_actor,
        opt_state_actor := s.opt_state_actor,
        params_actor_target := s.params_actor_target,
        learning_step := s.learning_step + 1 } := by
  simp only [td3_update]
  rw [if_neg h]

theorem td3_run_actor_frozen {P O : Type} (criticStep : ℕ → P → P → P → O → O × P)
    (actorStep : ℕ → P → P → O → O × P) (soft : P → P → P) (I : ℕ)
    (s0 : TD3State P O) (h0 : s0.learning_step = 0) :
    ∀ (k : ℕ), k < I →
      (td3_run criticStep actorStep soft I k s0).params_actor = s0.params_actor ∧
      (td3_run criticStep actorStep soft I k s0).opt_state_actor = s0.opt_state_actor ∧
      (td3_run criticStep actorStep soft I k s0).params_actor_target =
        s0.params_actor_target
  | 0, _ => ⟨rfl, rfl, rfl⟩
  | k + 1, hk => by
    have ih := td3_run_actor_frozen criticStep actorStep soft I s0 h0 k (by omega)
    have hls : (td3_run criticStep actorStep soft I k s0).learning_step = k := by
      rw [td3_run_learning_step, h0]
      omega
    have hmod : ((td3_run criticStep actorStep soft I k s0).learning_step + 1) % I ≠ 0 := by
      rw [hls, Nat.mod_eq_of_lt hk]
      omega
    have hrec := td3_update_not_interval criticStep actorStep soft I
      (td3_run criticStep actorStep soft I k s0) hmod
    refine ⟨?_, ?_, ?_⟩
    · show (td3_update criticStep actorStep soft I
        (td3_run criticStep actorStep soft I k s0)).params_actor = _
      rw [hrec]
      exact ih.1
    · show (td3_update criticStep actorStep soft I
        (td3_run criticStep actorStep soft I k s0)).opt_state_actor = _
      rw [hrec]
      exact ih.2.1
    · show (td3_update criticStep actorStep soft I
        (td3_run criticStep actorStep soft I k s0)).params_actor_target = _
      rw [hrec]
      exact ih.2.2

/-- C4: a TD3 update whose new learning step is not a multiple of
update_interval_policy leaves the actor parameters, actor optimizer state and
target-actor parameters unchanged while updating the critic, its optimizer
state and (by the per-step Polyak blend) the target critic; hence after
update_interval_policy - 1 learning steps from a fresh state the actor still
equals its initial value, and the update_interval_policy-th step changes it
whenever the actor gradient step at that point produces different parameters. -/
theorem td3_delayed_policy_update {P O : Type} (criticStep : ℕ → P → P → P → O → O × P)
    (actorStep : ℕ → P → P → O → O × P) (soft : P → P → P) (I : ℕ) :
    (∀ s : TD3State P O, (s.learning_step + 1) % I ≠ 0 →
      (td3_update criticStep actorStep soft I s).params_actor = s.params_actor ∧
      (td3_update criticStep actorStep soft I s).opt_state_actor = s.opt_state_actor ∧
      (td3_update criticStep actorStep soft I s).params_actor_target =
        s.params_actor_target ∧
      (td3_update criticStep actorStep soft I s).params_critic =
        (criticStep (s.learning_step + 1) s.params_critic s.params_actor_target
          s.params_critic_target s.opt_state_critic).2 ∧
      (td3_update criticStep actorStep soft I s).opt_state_critic =
        (criticStep (s.learning_step + 1) s.params_critic s.params_actor_target
          s.params_critic_target s.opt_state_critic).1 ∧
      (td3_update criticStep actorStep soft I s).params_critic_target =
        soft s.params_critic_target
          (criticStep (s.learning_step + 1) s.params_critic s.params_actor_target
            s.params_critic_target s.opt_state_critic).2) ∧
    (∀ s0 : TD3State P O, s0.learning_step = 0 → ∀ k < I,
      (td3_run criticStep actorStep soft I k s0).params_actor = s0.params_actor) ∧
    (∀ s0 : TD3State P O, s0.learning_step = 0 → 0 < I →
      (actorStep I (td3_run criticStep actorStep soft I (I - 1) s0).params_actor
        (criticStep I (td3_run criticStep actorStep soft I (I - 1) s0).params_critic
          (td3_run criticStep actorStep soft I (I - 1) s0).params_actor_target
          (td3_run criticStep actorStep soft I (I - 1) s0).params_critic_target
          (td3_run criticStep actorStep soft I (I - 1) s0).opt_state_critic).2
        (td3_run criticStep actorStep soft I (I - 1) s0).opt_state_actor).2 ≠
          s0.params_actor →
      (td3_run criticStep actorStep soft I I s0).params_actor ≠ s0.params_actor) := by
  refine ⟨?_, ?_, ?_⟩
  · intro s h
    rw [td3_update_not_interval criticStep actorStep soft I s h]
    exact ⟨rfl, rfl, rfl, rfl, rfl, rfl⟩
  · intro s0 h0 k hk
    exact (td3_run_actor_frozen criticStep actorStep soft I s0 h0 k hk).1
  · intro s0 h0 hI hgrad
    obtain ⟨J, rfl⟩ : ∃ J, I = J + 1 := ⟨I - 1, by omega⟩
    simp only [Nat.add_sub_cancel] at hgrad
    have hls : (td3_run criticStep actorStep soft (J + 1) J s0).learning_step = J := by
      rw [td3_run_learning_step, h0]
      omega
    show (td3_update criticStep actorStep soft (J + 1)
      (td3_run criticStep actorStep soft (J + 1) J s0)).params_actor ≠ s0.params_actor
    simp only [td3_update, hls, Nat.mod_self, if_pos]
    exact hgrad

theorem td3_delayed_policy_update_witness :
    (td3_run criticStepEx actorStepEx softEx 2 1 td3InitEx).params_actor =
      td3InitEx.params_actor ∧
    (td3_run criticStepEx actorStepEx softEx 2 2 td3InitEx).params_actor ≠
      td3InitEx.params_actor := by
  have h := td3_delayed_policy_update criticStepEx actorStepEx softEx 2
  refine ⟨h.2.1 td3InitEx rfl 1 (by norm_num), h.2.2 td3InitEx rfl (by norm_num) ?_⟩
  show (actorStepEx 2 (td3_run criticStepEx actorStepEx softEx 2 1 td3InitEx).params_actor
    _ _).2 ≠ td3InitEx.params_actor
  have hfrozen : (td3_run criticStepEx actorStepEx softEx 2 1 td3InitEx).params_actor =
      td3InitEx.params_actor := h.2.1 td3InitEx rfl 1 (by norm_num)
  rw [actorStepEx, hfrozen]
  show td3InitEx.params_actor + 1 ≠ td3InitEx.params_actor
  rw [td3InitEx, td3_init_state]
  norm_num
